/-
Verification of the claude-memory-context repository core.

The development embeds, over Lean lists and naturals, the two components the
specification's testable properties talk about:

* the knowledge/instruction/context store of the MCP knowledge server
  (`mcp-project-knowledge-server`, recovered from the compiled module shipped
  in the repository): SQLite-backed tables modelled as lists of rows,
  the manager operations `add_knowledge`, `update_instruction`,
  `search_knowledge`, `get_all_knowledge`, `get_all_instructions`,
  `update_context`, `get_context`, `get_claude_desktop_notes`, and the
  `call_tool` dispatcher with its eight tool names;

* the marker-splice algorithm of `memory-context-script.js`
  (`updateProjectInstructions`): a first-match, non-greedy regex
  replace-or-append over the literal sentinel markers, including the
  JavaScript `String.replace` dollar-escape semantics of the replacement
  string.

Strings are modelled as `List Char`; timestamps as `Nat` values passed in
explicitly (`CURRENT_TIMESTAMP` at call time); SQLite `AUTOINCREMENT`
identifiers as per-table counters.
-/
import Mathlib

namespace MemoryContext

/-! ## Substring search primitives

`findFirst pat l` returns the index of the first occurrence of `pat` in `l`,
the semantics of both a leftmost regex match start and of SQL `LIKE`-style
scanning. -/

def findFirst (pat : List Char) : List Char → Option Nat
  | [] => if pat.isPrefixOf ([] : List Char) then some 0 else none
  | c :: rest =>
    if pat.isPrefixOf (c :: rest) then some 0
    else (findFirst pat rest).map (· + 1)

/-- Boolean substring test: does `pat` occur anywhere in `l`? -/
def occursB (pat l : List Char) : Bool :=
  (findFirst pat l).isSome

/-! ## SQLite `LIKE`

`search_knowledge` filters with `content LIKE ? OR title LIKE ? OR tags LIKE ?`
where each parameter is `%{query}%`.  SQLite's `LIKE` is ASCII
case-insensitive, `%` matches any sequence of characters and `_` matches any
single character. -/

/-- ASCII lower-casing, the collation SQLite's `LIKE` applies. -/
def likeLower (c : Char) : Char := c.toLower

/-- `LIKE` pattern matching: `%` consumes any span (equivalently, the rest of
the pattern must match some suffix of the text), `_` consumes one character,
and anything else one case-folded character. -/
def likeMatch : List Char → List Char → Bool
  | [], s => s.isEmpty
  | '%' :: p, s => s.tails.any (fun t => likeMatch p t)
  | '_' :: p, s =>
    (match s with
     | [] => false
     | _ :: t => likeMatch p t)
  | c :: p, s =>
    (match s with
     | [] => false
     | a :: t => (likeLower a == likeLower c) && likeMatch p t)

/-- The `%{q}%` pattern `search_knowledge` builds around the query string. -/
def sqlLikePattern (q : List Char) : List Char :=
  '%' :: (q ++ ['%'])

/-! ## Tags serialization

`add_knowledge` stores the tag list with `json.dumps(entry.tags)` in the
`tags TEXT` column, and both query paths recover it with
`json.loads(row[4]) if row[4] else []`. -/

/-- `json.dumps` escaping for one string (quote and backslash; the
conservative fragment enough for the tag strings the repository writes). -/
def jsonEscape : List Char → List Char
  | [] => []
  | c :: t =>
    if c = '"' ∨ c = '\\' then '\\' :: c :: jsonEscape t
    else c :: jsonEscape t

/-- `json.dumps` of a list of strings: `["a", "b"]` with `", "` separators. -/
def jsonDumpsList (tags : List String) : String :=
  let items := tags.map (fun s => "\"" ++ ⟨jsonEscape s.data⟩ ++ "\"")
  "[" ++ String.intercalate ", " items ++ "]"

/-- Skip ASCII spaces (the only inter-token whitespace `json.dumps` emits). -/
def skipSpaces : List Char → List Char
  | ' ' :: t => skipSpaces t
  | l => l

/-- Parse one JSON string body up to the closing quote, unescaping. -/
def parseStringBody : List Char → Option (List Char × List Char)
  | [] => none
  | '"' :: t => some ([], t)
  | '\\' :: c :: t =>
    (parseStringBody t).map (fun (s, r) => (c :: s, r))
  | c :: t =>
    (parseStringBody t).map (fun (s, r) => (c :: s, r))

/-- Parse `, "x"`-separated string elements up to the closing bracket. -/
def parseElems : Nat → List Char → Option (List String × List Char)
  | 0, _ => none
  | n + 1, l =>
    match skipSpaces l with
    | ']' :: r => some ([], r)
    | ',' :: r =>
      match skipSpaces r with
      | '"' :: r2 =>
        match parseStringBody r2 with
        | some (s, r3) =>
          match parseElems n r3 with
          | some (ss, r4) => some (⟨s⟩ :: ss, r4)
          | none => none
        | none => none
      | _ => none
    | _ => none

/-- `json.loads` for a list of strings. -/
def jsonLoadsList (s : String) : Option (List String) :=
  match skipSpaces s.data with
  | '[' :: r =>
    match skipSpaces r with
    | ']' :: r2 => if (skipSpaces r2).isEmpty then some [] else none
    | '"' :: r2 =>
      match parseStringBody r2 with
      | some (x, r3) =>
        match parseElems (r3.length + 1) r3 with
        | some (ss, r4) =>
          if (skipSpaces r4).isEmpty then some (⟨x⟩ :: ss) else none
        | none => none
      | none => none
    | _ => none
  | _ => none

/-- `json.loads(row[4]) if row[4] else []`, as both query paths decode the
`tags` column (a decode failure would raise in the source; rows written by
`add_knowledge` always decode). -/
def tagsOfColumn (s : String) : List String :=
  if s = "" then [] else (jsonLoadsList s).getD []

/-! ## Storage schema

`init_db` creates four tables: `notes`, `project_knowledge`,
`project_instructions` and `project_context`.  Each row is modelled with its
column values; `AUTOINCREMENT` primary keys are modelled with per-table
next-id counters, and `TIMESTAMP DEFAULT CURRENT_TIMESTAMP` columns with a
`Nat` clock value supplied per statement. -/

structure NoteRow where
  id : Nat
  title : String
  content : String
  created_at : Nat
  deriving Repr, DecidableEq

structure KnowledgeRow where
  id : Nat
  title : String
  content : String
  category : String
  tags : String
  importance : Int
  source : String
  created_at : Nat
  updated_at : Nat
  deriving Repr, DecidableEq

structure InstructionRow where
  id : Nat
  «section» : String
  content : String
  priority : Int
  active : Bool
  created_at : Nat
  updated_at : Nat
  deriving Repr, DecidableEq

structure ContextRow where
  id : Nat
  context_key : String
  context_value : String
  description : Option String
  updated_at : Nat
  deriving Repr, DecidableEq

structure DB where
  notes : List NoteRow
  project_knowledge : List KnowledgeRow
  project_instructions : List InstructionRow
  project_context : List ContextRow
  nextNoteId : Nat
  nextKnowledgeId : Nat
  nextInstructionId : Nat
  nextContextId : Nat
  deriving Repr, DecidableEq

/-- A freshly initialized database (`init_db` on a fresh file). -/
def emptyDB : DB :=
  { notes := [], project_knowledge := [], project_instructions := [],
    project_context := [], nextNoteId := 1, nextKnowledgeId := 1,
    nextInstructionId := 1, nextContextId := 1 }

/-- Environment-derived manager configuration (`CLAUDE_PROJECT_ID`,
`CLAUDE_PROJECT_NAME`, `ANTHROPIC_API_KEY`). -/
structure ManagerConfig where
  project_id : Option String
  project_name : Option String
  anthropic_api_key : Option String
  deriving Repr, DecidableEq

def localConfig : ManagerConfig := ⟨none, none, none⟩

/-- `ProjectKnowledgeEntry` (pydantic model of the server). -/
structure ProjectKnowledgeEntry where
  title : String
  content : String
  category : String
  tags : List String := []
  importance : Int := 3
  source : String := "conversation"
  deriving Repr, DecidableEq

/-- `ProjectInstruction` (pydantic model of the server). -/
structure ProjectInstruction where
  «section» : String
  content : String
  priority : Int := 3
  deriving Repr, DecidableEq

/-! ## Knowledge store -/

/-- The `CHECK (importance BETWEEN 1 AND 5)` column constraint of
`project_knowledge`. -/
def importanceOK (i : Int) : Bool := 1 ≤ i && i ≤ 5

/-- The `CHECK (priority BETWEEN 1 AND 5)` column constraint of
`project_instructions`. -/
def priorityOK (p : Int) : Bool := 1 ≤ p && p ≤ 5

/-- `", ".join(entry.tags)`. -/
def joinComma (tags : List String) : String :=
  String.intercalate ", " tags

/-- The note title `f"{project_prefix}{entry.title}"` where
`project_prefix = f"[{self.project_name}] "` when a project id is bound. -/
def notePrefix (cfg : ManagerConfig) : String :=
  match cfg.project_id with
  | some _ => "[" ++ cfg.project_name.getD "None" ++ "] "
  | none => ""

/-- The composed display string `formatted_content` written to `notes`. -/
def formattedContent (cfg : ManagerConfig) (e : ProjectKnowledgeEntry) :
    String :=
  "Project: " ++ cfg.project_id.getD "Local" ++
  "\nCategory: " ++ e.category ++
  "\nImportance: " ++ toString e.importance ++ "/5" ++
  "\nTags: " ++ joinComma e.tags ++
  "\nSource: " ++ e.source ++
  "\n\n" ++ e.content

/-- First statement of `add_knowledge`: `INSERT INTO notes (title, content,
created_at) VALUES (?, ?, CURRENT_TIMESTAMP)`; `note_id = cursor.lastrowid`.
No constraint can fail (both columns are non-null strings). -/
def insertNote (cfg : ManagerConfig) (db : DB) (now : Nat)
    (e : ProjectKnowledgeEntry) : DB × Nat :=
  let row : NoteRow :=
    { id := db.nextNoteId
      title := notePrefix cfg ++ e.title
      content := formattedContent cfg e
      created_at := now }
  ({ db with notes := db.notes ++ [row], nextNoteId := db.nextNoteId + 1 },
   db.nextNoteId)

/-- Second statement of `add_knowledge`: `INSERT INTO project_knowledge
(title, content, category, tags, importance, source) VALUES (?,?,?,?,?,?)`.
The `CHECK` constraint on `importance` makes the statement raise
`IntegrityError` for out-of-range values. -/
def insertKnowledge (db : DB) (now : Nat) (e : ProjectKnowledgeEntry) :
    Except String DB :=
  if importanceOK e.importance then
    .ok { db with
          project_knowledge := db.project_knowledge ++
            [{ id := db.nextKnowledgeId
               title := e.title
               content := e.content
               category := e.category
               tags := jsonDumpsList e.tags
               importance := e.importance
               source := e.source
               created_at := now
               updated_at := now }]
          nextKnowledgeId := db.nextKnowledgeId + 1 }
  else
    .error "IntegrityError: CHECK constraint failed: importance BETWEEN 1 AND 5"

/-- `add_knowledge`: inside one `with sqlite3.connect(...)` block, insert the
display note, then the knowledge row, then `conn.commit()`; the context
manager commits on success and rolls the transaction back when the second
insert raises, so a failed call leaves the committed database unchanged. -/
def add_knowledge (cfg : ManagerConfig) (db : DB) (now : Nat)
    (e : ProjectKnowledgeEntry) : DB × Except String Nat :=
  let (db1, noteId) := insertNote cfg db now e
  match insertKnowledge db1 now e with
  | .ok db2 => (db2, .ok noteId)
  | .error msg => (db, .error msg)

/-- Row ordering of `ORDER BY importance DESC, created_at DESC`:
`a` sorts strictly before `b`. -/
def knowledgeBefore (a b : KnowledgeRow) : Bool :=
  b.importance < a.importance ||
    (a.importance == b.importance && b.created_at < a.created_at)

/-- Stable insertion used to realize the `ORDER BY`: an element is placed
before the first element that does not strictly precede it, so rows tied on
both keys keep their table order. -/
def orderInsert (a : KnowledgeRow) : List KnowledgeRow → List KnowledgeRow
  | [] => [a]
  | b :: t => if knowledgeBefore b a then b :: orderInsert a t else a :: b :: t

def orderKnowledge : List KnowledgeRow → List KnowledgeRow
  | [] => []
  | a :: t => orderInsert a (orderKnowledge t)

/-- The dictionary shape both `get_all_knowledge` and `search_knowledge`
build per row (`tags` decoded from JSON). -/
structure KnowledgeView where
  id : Nat
  title : String
  content : String
  category : String
  tags : List String
  importance : Int
  source : String
  created_at : Nat
  deriving Repr, DecidableEq

def knowledgeViewOfRow (r : KnowledgeRow) : KnowledgeView :=
  { id := r.id, title := r.title, content := r.content,
    category := r.category, tags := tagsOfColumn r.tags,
    importance := r.importance, source := r.source,
    created_at := r.created_at }

/-- `get_all_knowledge`: `SELECT ... FROM project_knowledge ORDER BY
importance DESC, created_at DESC`, rows packed into dictionaries. -/
def get_all_knowledge (db : DB) : List KnowledgeView :=
  (orderKnowledge db.project_knowledge).map knowledgeViewOfRow

/-- The `WHERE (content LIKE ? OR title LIKE ? OR tags LIKE ?)` filter of
`search_knowledge`, with the optional `AND category = ?`. -/
def searchPred (query : String) (category : Option String)
    (r : KnowledgeRow) : Bool :=
  let pat := sqlLikePattern query.data
  (likeMatch pat r.content.data || likeMatch pat r.title.data ||
     likeMatch pat r.tags.data) &&
    (match category with
     | some c => r.category == c
     | none => true)

/-- `search_knowledge(query, category=None)`: filter, then the same
`ORDER BY importance DESC, created_at DESC`, same dictionary shape. -/
def search_knowledge (db : DB) (query : String)
    (category : Option String := none) : List KnowledgeView :=
  (orderKnowledge (db.project_knowledge.filter
      (searchPred query category))).map knowledgeViewOfRow

/-! ## Instruction store -/

/-- The `WHERE section = ? AND active = 1` row condition. -/
def activeSectionPred (s : String) (r : InstructionRow) : Bool :=
  r.«section» == s && r.active

/-- `update_instruction`: `SELECT id FROM project_instructions WHERE
section = ? AND active = 1`; if a row was fetched, `UPDATE ... SET
content = ?, priority = ?, updated_at = CURRENT_TIMESTAMP WHERE section = ?
AND active = 1`, else `INSERT INTO project_instructions (section, content,
priority) VALUES (?, ?, ?)`; `conn.commit()`; `return True`.  The `CHECK`
constraint on `priority` raises on either statement for out-of-range
values, rolling the transaction back. -/
def update_instruction (db : DB) (now : Nat) (ins : ProjectInstruction) :
    DB × Except String Bool :=
  let existing :=
    (db.project_instructions.filter (activeSectionPred ins.«section»)).head?
  if priorityOK ins.priority then
    match existing with
    | some _ =>
      ({ db with project_instructions :=
          (db.project_instructions.map (fun r =>
            if activeSectionPred ins.«section» r then
              { r with content := ins.content, priority := ins.priority,
                       updated_at := now }
            else r)) },
       .ok true)
    | none =>
      ({ db with
          project_instructions := db.project_instructions ++
            [{ id := db.nextInstructionId
               «section» := ins.«section»
               content := ins.content
               priority := ins.priority
               active := true
               created_at := now
               updated_at := now }]
          nextInstructionId := db.nextInstructionId + 1 },
       .ok true)
  else
    (db, .error "IntegrityError: CHECK constraint failed: priority BETWEEN 1 AND 5")

/-- The dictionary shape `get_all_instructions` builds per row. -/
structure InstructionView where
  id : Nat
  «section» : String
  content : String
  priority : Int
  created_at : Nat
  updated_at : Nat
  deriving Repr, DecidableEq

def instructionViewOfRow (r : InstructionRow) : InstructionView :=
  { id := r.id, «section» := r.«section», content := r.content,
    priority := r.priority, created_at := r.created_at,
    updated_at := r.updated_at }

/-- Ordering `ORDER BY priority DESC, section`: strictly before. -/
def instructionBefore (a b : InstructionRow) : Bool :=
  b.priority < a.priority ||
    (a.priority == b.priority && a.«section» < b.«section»)

def instrInsert (a : InstructionRow) :
    List InstructionRow → List InstructionRow
  | [] => [a]
  | b :: t => if instructionBefore b a then b :: instrInsert a t else a :: b :: t

def orderInstructions : List InstructionRow → List InstructionRow
  | [] => []
  | a :: t => instrInsert a (orderInstructions t)

/-- `get_all_instructions`: `SELECT ... FROM project_instructions WHERE
active = 1 ORDER BY priority DESC, section`. -/
def get_all_instructions (db : DB) : List InstructionView :=
  (orderInstructions (db.project_instructions.filter (·.active))).map
    instructionViewOfRow

/-! ## Context store -/

/-- `update_context`: `INSERT OR REPLACE INTO project_context (context_key,
context_value, description, updated_at) VALUES (?, ?, ?, CURRENT_TIMESTAMP)`;
`OR REPLACE` deletes any row with the same unique `context_key` and inserts a
fresh row; `return True`. -/
def update_context (db : DB) (now : Nat) (key value : String)
    (description : Option String := none) : DB × Except String Bool :=
  ({ db with
      project_context :=
        (db.project_context.filter (fun r => !(r.context_key == key))) ++
          [{ id := db.nextContextId, context_key := key,
             context_value := value, description := description,
             updated_at := now }]
      nextContextId := db.nextContextId + 1 },
   .ok true)

structure ContextView where
  value : String
  description : Option String
  updated_at : Nat
  deriving Repr, DecidableEq

def contextBefore (a b : ContextRow) : Bool := b.updated_at < a.updated_at

def ctxInsert (a : ContextRow) : List ContextRow → List ContextRow
  | [] => [a]
  | b :: t => if contextBefore b a then b :: ctxInsert a t else a :: b :: t

def orderContext : List ContextRow → List ContextRow
  | [] => []
  | a :: t => ctxInsert a (orderContext t)

/-- `get_context`: `SELECT ... FROM project_context ORDER BY updated_at
DESC` packed into a key-indexed dictionary (modelled as the association list
in enumeration order). -/
def get_context (db : DB) : List (String × ContextView) :=
  (orderContext db.project_context).map
    (fun r => (r.context_key, ⟨r.context_value, r.description, r.updated_at⟩))

/-! ## Display notes -/

structure NoteView where
  id : Nat
  title : String
  content : String
  created_at : Nat
  deriving Repr, DecidableEq

def noteBefore (a b : NoteRow) : Bool := b.created_at < a.created_at

def noteInsert (a : NoteRow) : List NoteRow → List NoteRow
  | [] => [a]
  | b :: t => if noteBefore b a then b :: noteInsert a t else a :: b :: t

def orderNotes : List NoteRow → List NoteRow
  | [] => []
  | a :: t => noteInsert a (orderNotes t)

/-- `get_claude_desktop_notes`: `SELECT id, title, content, created_at FROM
notes ORDER BY created_at DESC`. -/
def get_claude_desktop_notes (db : DB) : List NoteView :=
  (orderNotes db.notes).map (fun r => ⟨r.id, r.title, r.content, r.created_at⟩)

/-- `get_project_context` configuration report. -/
structure ProjectContextInfo where
  project_id : String
  project_name : String
  has_api_key : Bool
  storage_mode : String
  deriving Repr, DecidableEq

def get_project_context (cfg : ManagerConfig) : ProjectContextInfo :=
  { project_id := cfg.project_id.getD "None"
    project_name := cfg.project_name.getD "Local Storage"
    has_api_key := cfg.anthropic_api_key.isSome
    storage_mode := if cfg.project_id.isSome then "API + Local" else "Local Only" }

/-! ## Improvement-suggestion heuristic

The `suggest_project_improvements` branch of `call_tool`. -/

/-- Python `str.lower()` restricted to ASCII letters (the heuristic's
keywords are ASCII). -/
def pyLower (s : String) : String := ⟨s.data.map Char.toLower⟩

/-- Python `needle in haystack` substring containment. -/
def containsSub (needle hay : String) : Bool := occursB needle.data hay.data

def suggestionTechnical : String :=
  "Consider adding technical knowledge about coding practices or architecture"

def suggestionPreferences : String :=
  "Consider documenting user preferences mentioned in conversations"

def suggestionConstraints : String :=
  "Consider adding constraint instructions based on mentioned limitations"

def suggestionGuidelines : String :=
  "Consider adding guideline instructions for how to use the accumulated knowledge"

def suggestionLowImportance (n : Nat) : String :=
  "Consider reviewing " ++ toString n ++
    " low-importance knowledge entries for relevance"

/-- The suggestion list the branch accumulates with successive `append`s:
rule conditions straight from the dispatcher body. -/
def improvement_suggestions (knowledge : List KnowledgeView)
    (instructions : List InstructionView) (conversation_summary : String) :
    List String :=
  let categories := knowledge.map (·.category)
  let instruction_sections := instructions.map (·.«section»)
  let lsum := pyLower conversation_summary
  (if !(categories.contains "technical") && containsSub "code" lsum then
      [suggestionTechnical] else []) ++
  (if !(categories.contains "preferences") && containsSub "prefer" lsum then
      [suggestionPreferences] else []) ++
  (if !(instruction_sections.contains "constraints") &&
        (containsSub "limit" lsum || containsSub "constraint" lsum) then
      [suggestionConstraints] else []) ++
  (if !(instruction_sections.contains "guidelines") &&
        decide (5 < knowledge.length) then
      [suggestionGuidelines] else []) ++
  (if 10 < knowledge.length then
      (let low_importance := knowledge.filter (fun k => k.importance < 3)
       if 5 < low_importance.length then
        [suggestionLowImportance low_importance.length] else [])
    else [])

/-- Rendering of the suggestion analysis into the returned text block. -/
def renderSuggestions (suggestions : List String)
    (nKnowledge nInstructions : Nat) : String :=
  let header := "## Project Improvement Suggestions\n\n"
  if suggestions.isEmpty then
    header ++ "No specific improvements suggested at this time. The project knowledge appears well-organized."
  else
    header ++
      String.join ((List.enumFrom 1 suggestions).map
        (fun p => toString p.1 ++ ". " ++ p.2 ++ "\n")) ++
      "\nBased on analysis of " ++ toString nKnowledge ++
      " knowledge entries and " ++ toString nInstructions ++
      " instruction sections."

/-! ## Tool dispatch layer -/

/-- The argument mapping of a tool call; absent keys are `none`. -/
structure ToolArgs where
  title : Option String := none
  content : Option String := none
  category : Option String := none
  tags : Option (List String) := none
  importance : Option Int := none
  «section» : Option String := none
  priority : Option Int := none
  query : Option String := none
  key : Option String := none
  value : Option String := none
  description : Option String := none
  conversation_summary : Option String := none
  focus_areas : Option (List String) := none
  deriving Repr, DecidableEq

/-- `arguments[k]`: raises `KeyError` when the key is absent. -/
def reqArg (k : String) : Option α → Except String α
  | some v => .ok v
  | none => .error ("KeyError: " ++ k)

/-- Python `str.title()` on ASCII words. -/
def pyTitleGo : Bool → List Char → List Char
  | _, [] => []
  | prevAlpha, c :: t =>
    (if c.isAlpha then (if prevAlpha then c.toLower else c.toUpper) else c) ::
      pyTitleGo c.isAlpha t

def pyTitle (s : String) : String := ⟨pyTitleGo false s.data⟩

/-- Python string slice `s[:n]` with the `"..."` ellipsis convention used by
the rendering code. -/
def previewString (s : String) (n : Nat) : String :=
  if n < s.data.length then ⟨s.data.take n⟩ ++ "..." else s

def renderSearchItem (v : KnowledgeView) : String :=
  "**" ++ v.title ++ "** (" ++ v.category ++ ", importance: " ++
    toString v.importance ++ ")\n" ++
  previewString v.content 200 ++ "\n" ++
  "Tags: " ++ joinComma v.tags ++ "\n\n"

def renderContextLine (p : String × ContextView) : String :=
  "- **" ++ p.1 ++ "**: " ++ p.2.value ++ "\n" ++
    (match p.2.description with
     | some d => "  _" ++ d ++ "_\n"
     | none => "")

def renderInstructionBlock (v : InstructionView) : String :=
  "### " ++ pyTitle v.«section» ++ " (Priority: " ++ toString v.priority ++
    ")\n" ++ v.content ++ "\n"

/-- Group knowledge items by category in first-seen order (the plain `dict`
accumulation of the overview branch). -/
def addToGroup (acc : List (String × List KnowledgeView))
    (item : KnowledgeView) : List (String × List KnowledgeView) :=
  match acc with
  | [] => [(item.category, [item])]
  | (c, xs) :: rest =>
    if c == item.category then (c, xs ++ [item]) :: rest
    else (c, xs) :: addToGroup rest item

def renderKnowledgeGroup (p : String × List KnowledgeView) : String :=
  "### " ++ pyTitle p.1 ++ " (" ++ toString p.2.length ++ " items)\n" ++
  String.join ((p.2.take 3).map (fun v =>
    "- **" ++ v.title ++ "** (importance: " ++ toString v.importance ++ ")\n")) ++
  (if 3 < p.2.length then
      "- ... and " ++ toString (p.2.length - 3) ++ " more\n" else "") ++
  "\n"

def renderOverview (context : List (String × ContextView))
    (instructions : List InstructionView)
    (knowledge : List KnowledgeView) : String :=
  "# Project Overview\n\n" ++
  (if context.isEmpty then "" else
    "## Current Context\n" ++
      String.join (context.map renderContextLine) ++ "\n") ++
  (if instructions.isEmpty then "" else
    "## Project Instructions\n" ++
      String.join (instructions.map renderInstructionBlock)) ++
  (if knowledge.isEmpty then
    "## Knowledge Summary\nNo project knowledge stored yet.\n\n"
   else
    "## Knowledge Summary\n" ++
      String.join ((knowledge.foldl addToGroup []).map renderKnowledgeGroup))

def renderNote (v : NoteView) : String :=
  "## " ++ v.title ++ "\n" ++
  "**Created:** " ++ toString v.created_at ++ "\n" ++
  previewString v.content 300 ++ "\n\n---\n\n"

def checkContextConnected : String :=
  "\n**Current Setup**: Connected to specific Claude project\n**Knowledge will be added to**: Actual Claude project (when API is implemented)\n"

def checkContextLocal : String :=
  "\n**Current Setup**: Local storage mode\n**Knowledge will be added to**: Claude Desktop's local notes section\n\n### 🛠️ To Connect to a Specific Project:\n\n1. **Edit your MCP server configuration** in `claude_desktop_config.json`:\n```json\n\"claude-project-knowledge\": \x7b\x7b\n    \"command\": \"/Users/hkr/anaconda3/bin/python3\",\n    \"args\": [\"/path/to/mcp-project-knowledge-server.py\"],\n    \"env\": \x7b\x7b\n        \"CLAUDE_PROJECT_ID\": \"your-project-id\",\n        \"CLAUDE_PROJECT_NAME\": \"MCP MEMORY DASHBOARD\",\n        \"ANTHROPIC_API_KEY\": \"your-api-key\"\n    \x7d\x7d\n\x7d\x7d\n```\n\n2. **Find your project ID** from the Claude web interface URL\n3. **Restart Claude Desktop** to apply changes\n"

def checkContextAvailable : String :=
  "\n\n**Available Projects** (based on local notes):\n- MCP-Memory-Dashboard (found in local notes)\n"

def renderCheckContext (info : ProjectContextInfo) : String :=
  ("# Project Context Status\n        \n🎯 **Current Project**: " ++
    info.project_name ++
    "\n🆔 **Project ID**: " ++ info.project_id ++
    "\n🔑 **API Key**: " ++
    (if info.has_api_key then "✅ Configured" else "❌ Not configured") ++
    "\n💾 **Storage Mode**: " ++ info.storage_mode ++
    "\n\n## Configuration Status\n\n" ++
    (if info.project_id != "None" then "✅ **Project Context Detected**"
     else "⚠️ **No Project Context**") ++
    (if info.project_id != "None" then checkContextConnected
     else checkContextLocal) ++
    checkContextAvailable).trim

/-- The `call_tool` dispatcher: maps a tool name and argument mapping to a
store operation and a rendered text block.  Result is the committed database
and either the returned `TextContent` texts or a raised exception. -/
def call_tool (cfg : ManagerConfig) (db : DB) (now : Nat) (name : String)
    (args : ToolArgs) : DB × Except String (List String) :=
  if name = "add_project_knowledge" then
    match reqArg "title" args.title, reqArg "content" args.content,
        reqArg "category" args.category with
    | .ok title, .ok content, .ok category =>
      let entry : ProjectKnowledgeEntry :=
        { title := title, content := content, category := category,
          tags := args.tags.getD [], importance := args.importance.getD 3 }
      match add_knowledge cfg db now entry with
      | (db1, .ok note_id) =>
        let context := get_project_context cfg
        let api_note := "🌐 Note: This entry will be added to the actual Claude project when API integration is implemented."
        let local_note := "📱 This entry will appear in Claude Desktop's local Project knowledge section."
        let status_note :=
          if context.project_id != "None" then api_note else local_note
        (db1, .ok ["✅ Added project knowledge '" ++ entry.title ++
          "' (Note ID: " ++ toString note_id ++ ")\n🎯 Project: " ++
          context.project_name ++ "\n📝 Category: " ++ entry.category ++
          " | Importance: " ++ toString entry.importance ++
          "/5\n🏷️ Tags: " ++ joinComma entry.tags ++ "\n💾 Storage: " ++
          context.storage_mode ++ "\n\n" ++ status_note])
      | (db1, .error e) => (db1, .error e)
    | .error e, _, _ => (db, .error e)
    | _, .error e, _ => (db, .error e)
    | _, _, .error e => (db, .error e)
  else if name = "update_project_instructions" then
    match reqArg "section" args.«section», reqArg "content" args.content with
    | .ok s, .ok content =>
      let instruction : ProjectInstruction :=
        { «section» := s, content := content,
          priority := args.priority.getD 3 }
      match update_instruction db now instruction with
      | (db1, .ok success) =>
        (db1, .ok [if success then
            "✅ Updated project instructions for section '" ++
              instruction.«section» ++ "' with priority " ++
              toString instruction.priority
          else
            "❌ Failed to update project instructions for section '" ++
              instruction.«section» ++ "'"])
      | (db1, .error e) => (db1, .error e)
    | .error e, _ => (db, .error e)
    | _, .error e => (db, .error e)
  else if name = "search_project_knowledge" then
    match reqArg "query" args.query with
    | .ok query =>
      let results := search_knowledge db query args.category
      if results.isEmpty then
        (db, .ok ["No project knowledge found for query: '" ++ query ++ "'"])
      else
        (db, .ok ["Found " ++ toString results.length ++
          " knowledge entries for '" ++ query ++ "':\n\n" ++
          String.join ((results.take 5).map renderSearchItem)])
    | .error e => (db, .error e)
  else if name = "get_project_overview" then
    (db, .ok [renderOverview (get_context db) (get_all_instructions db)
      (get_all_knowledge db)])
  else if name = "update_project_context" then
    match reqArg "key" args.key, reqArg "value" args.value with
    | .ok key, .ok value =>
      match update_context db now key value args.description with
      | (db1, .ok success) =>
        (db1, .ok [if success then
            "✅ Updated project context '" ++ key ++ "' = '" ++ value ++ "'"
          else
            "❌ Failed to update project context '" ++ key ++ "'"])
      | (db1, .error e) => (db1, .error e)
    | .error e, _ => (db, .error e)
    | _, .error e => (db, .error e)
  else if name = "suggest_project_improvements" then
    match reqArg "conversation_summary" args.conversation_summary with
    | .ok conversation_summary =>
      let knowledge := get_all_knowledge db
      let instructions := get_all_instructions db
      let suggestions :=
        improvement_suggestions knowledge instructions conversation_summary
      (db, .ok [renderSuggestions suggestions knowledge.length
        instructions.length])
    | .error e => (db, .error e)
  else if name = "get_claude_desktop_notes" then
    let notes := get_claude_desktop_notes db
    if notes.isEmpty then
      (db, .ok ["No notes found in Claude Desktop's Project knowledge section."])
    else
      (db, .ok ["# Claude Desktop Project Knowledge (" ++
        toString notes.length ++ " entries)\n\n" ++
        String.join (notes.map renderNote)])
  else if name = "check_project_context" then
    (db, .ok [renderCheckContext (get_project_context cfg)])
  else
    (db, .ok ["Unknown tool: " ++ name])

/-- The eight declared tool names (`list_tools`). -/
def declaredTools : List String :=
  ["add_project_knowledge", "update_project_instructions",
   "search_project_knowledge", "get_project_overview",
   "update_project_context", "suggest_project_improvements",
   "get_claude_desktop_notes", "check_project_context"]

/-! ## Marker splice algorithm

`updateProjectInstructions` of `memory-context-script.js`:

```
const memorySection =
  /<!-- MEMORY CONTEXT START -->[\s\S]*?<!-- MEMORY CONTEXT END -->/;
const newMemorySection =
  `<!-- MEMORY CONTEXT START -->\n${memoryContext}\n<!-- MEMORY CONTEXT END -->`;
if (memorySection.test(systemPrompt)) {
  systemPrompt = systemPrompt.replace(memorySection, newMemorySection);
} else {
  systemPrompt += `\n\n${newMemorySection}`;
}
```

The regex is non-global and lazy, so the match is the leftmost occurrence of
the start marker followed by the nearest later occurrence of the end marker.
`String.replace` substitutes dollar escapes (`$$`, `$&`, a dollar followed by
a backquote, a dollar followed by a quote) in the replacement string. -/

def startMarker : List Char := "<!-- MEMORY CONTEXT START -->".data

def endMarker : List Char := "<!-- MEMORY CONTEXT END -->".data

/-- The span `[i, e)` of the first regex match: `i` is the first index of the
start marker, and the match extends to the end of the first end marker that
begins at or after `i + startMarker.length`. -/
def spliceSpan (doc : List Char) : Option (Nat × Nat) :=
  match findFirst startMarker doc with
  | none => none
  | some i =>
    match findFirst endMarker (doc.drop (i + startMarker.length)) with
    | none => none
    | some j =>
      some (i, i + startMarker.length + j + endMarker.length)

/-- `newMemorySection`. -/
def newMemorySection (block : List Char) : List Char :=
  startMarker ++ '\n' :: (block ++ '\n' :: endMarker)

def dollarChar : Char := Char.ofNat 36

def backquoteChar : Char := Char.ofNat 96

def singleQuoteChar : Char := Char.ofNat 39

def ampChar : Char := Char.ofNat 38

/-- `GetSubstitution`: expansion of dollar escapes in a `String.replace`
replacement string; `m` is the matched span, `bf` the text before the match,
`af` the text after it.  A dollar not followed by an escape code stands for
itself (the regex has no capture groups). -/
def expandRepl (m bf af : List Char) : List Char → List Char
  | [] => []
  | c :: t =>
    if c = dollarChar then
      match t with
      | [] => [c]
      | d :: t2 =>
        if d = dollarChar then dollarChar :: expandRepl m bf af t2
        else if d = ampChar then m ++ expandRepl m bf af t2
        else if d = backquoteChar then bf ++ expandRepl m bf af t2
        else if d = singleQuoteChar then af ++ expandRepl m bf af t2
        else c :: d :: expandRepl m bf af t2
    else c :: expandRepl m bf af t

/-- `updateProjectInstructions` on the document text: replace the matched
span by the (dollar-expanded) new section, or append the new section after a
blank line when there is no match. -/
def updateProjectInstructions (doc block : List Char) : List Char :=
  match spliceSpan doc with
  | some (i, e) =>
    doc.take i ++
      expandRepl ((doc.drop i).take (e - i)) (doc.take i) (doc.drop e)
        (newMemorySection block) ++
      doc.drop e
  | none => doc ++ '\n' :: '\n' :: newMemorySection block

/-- Does the list contain a dollar escape recognized by `expandRepl`? -/
def isEscapeCode (l : List Char) : Bool :=
  match l with
  | [] => false
  | d :: _ =>
    d = dollarChar || d = ampChar || d = backquoteChar || d = singleQuoteChar

def hasDollarEscape : List Char → Bool
  | [] => false
  | c :: t => (decide (c = dollarChar) && isEscapeCode t) || hasDollarEscape t

/-- The store obtained by adding, to a fresh store, three entries with
importances 5, 3, 5 at strictly increasing timestamps `t1 < t2 < t3`. -/
def orderingScenarioDB (t1 t2 t3 : Nat) : DB :=
  (add_knowledge localConfig
    (add_knowledge localConfig
      (add_knowledge localConfig emptyDB t1
        { title := "T1", content := "c1", category := "x",
          importance := 5 }).1 t2
      { title := "T2", content := "c2", category := "x",
        importance := 3 }).1 t3
    { title := "T3", content := "c3", category := "x",
      importance := 5 }).1

/-- A store holding exactly one knowledge entry and no instruction rows. -/
def singleEntryDB : DB :=
  (add_knowledge localConfig emptyDB 1
    { title := "T1", content := "c1", category := "x", importance := 5 }).1

/-- A store holding six knowledge entries and no instruction rows. -/
def sixEntryDB : DB :=
  List.foldl
    (fun db i =>
      (add_knowledge localConfig db i
        { title := "T" ++ toString i, content := "c", category := "x",
          importance := 3 }).1)
    emptyDB [1, 2, 3, 4, 5, 6]

/-! ## Lemmas and claim theorems -/

theorem findFirst_eq_some_iff (pat l : List Char) (i : Nat) :
    findFirst pat l = some i ↔
      (pat <+: l.drop i ∧ ∀ j, j < i → ¬ pat <+: l.drop j) := by
  induction l generalizing i with
  | nil =>
    simp only [List.drop_nil]
    by_cases hp : pat <+: ([] : List Char)
    · have hb : pat.isPrefixOf ([] : List Char) = true :=
        List.isPrefixOf_iff_prefix.mpr hp
      simp only [findFirst, hb, if_true]
      constructor
      · intro h; injection h with h; subst h
        exact ⟨hp, fun j hj => absurd hj (by omega)⟩
      · rintro ⟨-, hmin⟩
        rcases Nat.eq_zero_or_pos i with rfl | hi
        · rfl
        · exact absurd hp (hmin 0 hi)
    · have hb : ¬ (pat.isPrefixOf ([] : List Char) = true) :=
        fun hc => hp ( List.isPrefixOf_iff_prefix.mp hc)
      simp only [findFirst, if_neg hb]
      constructor
      · intro h; cases h
      · rintro ⟨h2, -⟩; exact absurd h2 hp
  | cons c rest ih =>
    by_cases hp : pat <+: c :: rest
    · have hb : pat.isPrefixOf (c :: rest) = true :=
        List.isPrefixOf_iff_prefix.mpr hp
      simp only [findFirst, hb, if_true]
      constructor
      · intro h; injection h with h; subst h
        exact ⟨by simpa using hp, fun j hj => absurd hj (by omega)⟩
      · rintro ⟨-, hmin⟩
        rcases Nat.eq_zero_or_pos i with rfl | hi
        · rfl
        · exact absurd (by simpa using hp) (hmin 0 hi)
    · have hb : ¬ (pat.isPrefixOf (c :: rest) = true) :=
        fun hc => hp ( List.isPrefixOf_iff_prefix.mp hc)
      simp only [findFirst, if_neg hb, Option.map_eq_some']
      constructor
      · rintro ⟨i', hi', rfl⟩
        rcases (ih i').mp hi' with ⟨hocc, hmin⟩
        refine ⟨by simpa using hocc, ?_⟩
        intro j hj
        cases j with
        | zero => simpa using hp
        | succ j' =>
          have := hmin j' (by omega)
          simpa using this
      · rintro ⟨hocc, hmin⟩
        cases i with
        | zero => exact absurd (by simpa using hocc) hp
        | succ i' =>
          refine ⟨i', (ih i').mpr ⟨by simpa using hocc, ?_⟩, rfl⟩
          intro j hj
          have := hmin (j + 1) (by omega)
          simpa using this

theorem findFirst_eq_none_iff (pat l : List Char) :
    findFirst pat l = none ↔ ∀ j, ¬ pat <+: l.drop j := by
  induction l with
  | nil =>
    simp only [List.drop_nil]
    by_cases hp : pat <+: ([] : List Char)
    · have hb : pat.isPrefixOf ([] : List Char) = true :=
        List.isPrefixOf_iff_prefix.mpr hp
      simp only [findFirst, hb, if_true]
      constructor
      · intro h; cases h
      · intro h2; exact absurd hp (h2 0)
    · have hb : ¬ (pat.isPrefixOf ([] : List Char) = true) :=
        fun hc => hp ( List.isPrefixOf_iff_prefix.mp hc)
      simp only [findFirst, if_neg hb, true_iff]
      intro j; exact hp
  | cons c rest ih =>
    by_cases hp : pat <+: c :: rest
    · have hb : pat.isPrefixOf (c :: rest) = true :=
        List.isPrefixOf_iff_prefix.mpr hp
      simp only [findFirst, hb, if_true]
      constructor
      · intro h; cases h
      · intro h2; exact absurd (by simpa using hp) (h2 0)
    · have hb : ¬ (pat.isPrefixOf (c :: rest) = true) :=
        fun hc => hp ( List.isPrefixOf_iff_prefix.mp hc)
      simp only [findFirst, if_neg hb, Option.map_eq_none']
      rw [ih]
      constructor
      · intro h2 j
        cases j with
        | zero => simpa using hp
        | succ j' => simpa using h2 j'
      · intro h2 j
        simpa using h2 (j + 1)

theorem occursB_eq_false_iff (pat l : List Char) :
    occursB pat l = false ↔ ∀ j, ¬ pat <+: l.drop j := by
  rw [← findFirst_eq_none_iff]
  unfold occursB
  cases findFirst pat l <;> simp

theorem likeMatch_percent_nil (s : List Char) :
    likeMatch ['%'] s = true := by
  induction s with
  | nil => decide
  | cons a t ih =>
    simp only [likeMatch, List.any_eq_true] at ih ⊢
    rcases ih with ⟨x, hx, hm⟩
    exact ⟨x, by simp [List.tails, hx], hm⟩

theorem likeMatch_empty_pattern (s : List Char) :
    likeMatch (sqlLikePattern []) s = true := by
  have : likeMatch (sqlLikePattern []) s
      = s.tails.any (fun t => likeMatch ['%'] t) := by
    simp [sqlLikePattern, likeMatch]
  rw [this]
  simp only [List.any_eq_true]
  exact ⟨s, by cases s <;> simp [List.tails], likeMatch_percent_nil s⟩

/-! ## Take/drop toolkit for occurrence reasoning -/

theorem prefix_take_iff (pat l : List Char) (m : Nat)
    (h : pat.length ≤ m) : pat <+: l.take m ↔ pat <+: l := by
  rw [List.prefix_iff_eq_take, List.prefix_iff_eq_take, List.take_take,
    Nat.min_eq_left h]

theorem drop_take_comm (l : List Char) (p k : Nat) :
    (l.drop p).take k = (l.take (p + k)).drop p := by
  rw [List.drop_take]
  congr 1
  omega

/-- Transfer an occurrence between two lists that agree on a prefix long
enough to contain its window. -/
theorem prefix_drop_of_take_eq (u v : List Char) (n p : Nat)
    (pat : List Char) (huv : u.take n = v.take n)
    (hle : p + pat.length ≤ n) :
    (pat <+: u.drop p ↔ pat <+: v.drop p) := by
  have hu : pat <+: u.drop p ↔ pat <+: (u.drop p).take (n - p) := by
    rw [prefix_take_iff _ _ _ (by omega)]
  have hv : pat <+: v.drop p ↔ pat <+: (v.drop p).take (n - p) := by
    rw [prefix_take_iff _ _ _ (by omega)]
  rw [hu, hv, ← List.drop_take, ← List.drop_take, huv]

theorem drop_append_plus {α : Type} (l₁ l₂ : List α) (k : Nat) :
    (l₁ ++ l₂).drop (l₁.length + k) = l₂.drop k := by
  rw [← List.drop_drop, List.drop_left]

/-- The slice `[d, d + k)` of an occurrence, as a take-of-drop. -/
theorem prefix_slice (pat l : List Char) (hocc : pat <+: l) (d k : Nat)
    (hdk : d + k ≤ pat.length) :
    (pat.drop d).take k = (l.drop d).take k := by
  have hpat : pat = l.take pat.length := List.prefix_iff_eq_take.mp hocc
  calc (pat.drop d).take k
      = ((l.take pat.length).drop d).take k := by rw [← hpat]
    _ = ((l.drop d).take (pat.length - d)).take k := by rw [List.drop_take]
    _ = (l.drop d).take (min k (pat.length - d)) := by rw [List.take_take]
    _ = (l.drop d).take k := by rw [Nat.min_eq_left (by omega)]

/-! ## Marker facts -/

theorem startMarker_length : startMarker.length = 29 := rfl

theorem endMarker_length : endMarker.length = 27 := rfl

/-- The start marker has no nontrivial border (no proper suffix equals the
prefix of the same length), because `<` occurs in it only at position 0. -/
theorem startMarker_no_border :
    ∀ d, d < 29 → 0 < d →
      startMarker.drop d ≠ startMarker.take (29 - d) := by
  decide

theorem endMarker_no_border :
    ∀ d, d < 27 → 0 < d →
      endMarker.drop d ≠ endMarker.take (27 - d) := by
  decide

theorem startMarker_take_one : startMarker.take 1 = ['<'] := by decide

theorem endMarker_take_one : endMarker.take 1 = ['<'] := by decide

theorem startMarker_drop_28 : startMarker.drop 28 = ['>'] := by decide

theorem endMarker_drop_26 : endMarker.drop 26 = ['>'] := by decide

/-! ## Dollar-escape expansion lemmas -/

theorem isEscapeCode_cons (d : Char) (xs : List Char) :
    isEscapeCode (d :: xs) =
      (d = dollarChar || d = ampChar || d = backquoteChar ||
        d = singleQuoteChar) := rfl

theorem isEscapeCode_append (l m : List Char) (h : l ≠ []) :
    isEscapeCode (l ++ m) = isEscapeCode l := by
  cases l with
  | nil => exact absurd rfl h
  | cons d xs => rfl

theorem hasDollarEscape_cons (c : Char) (t : List Char) :
    hasDollarEscape (c :: t) =
      ((decide (c = dollarChar) && isEscapeCode t) || hasDollarEscape t) :=
  rfl

theorem hasDollarEscape_append (l1 l2 : List Char)
    (h1 : hasDollarEscape l1 = false) (h2 : hasDollarEscape l2 = false)
    (hh : isEscapeCode l2 = false) :
    hasDollarEscape (l1 ++ l2) = false := by
  induction l1 with
  | nil => simpa using h2
  | cons c t ih =>
    rw [hasDollarEscape_cons] at h1
    rcases Bool.or_eq_false_iff.mp h1 with ⟨hc, ht⟩
    have htail := ih ht
    rw [List.cons_append, hasDollarEscape_cons, htail,
      Bool.or_false]
    cases t with
    | nil => rw [List.nil_append, hh, Bool.and_false]
    | cons d xs =>
      rw [List.cons_append, isEscapeCode_cons]
      rw [isEscapeCode_cons] at hc
      exact hc

theorem expandRepl_id (m bf af l : List Char)
    (h : hasDollarEscape l = false) : expandRepl m bf af l = l := by
  induction l with
  | nil => rfl
  | cons c t ih =>
    rw [hasDollarEscape_cons] at h
    rcases Bool.or_eq_false_iff.mp h with ⟨hc, ht⟩
    by_cases hdollar : c = dollarChar
    · have hesc : isEscapeCode t = false := by
        rcases Bool.and_eq_false_iff.mp hc with h' | h'
        · exact absurd hdollar (by simpa using h')
        · exact h'
      cases t with
      | nil =>
        show expandRepl m bf af [c] = [c]
        conv_lhs => unfold expandRepl
        rw [if_pos hdollar]
      | cons d t2 =>
        rw [isEscapeCode_cons] at hesc
        have hd1 : ¬ d = dollarChar := by
          intro hd; rw [hd] at hesc; simp at hesc
        have hd2 : ¬ d = ampChar := by
          intro hd; rw [hd] at hesc; simp at hesc
        have hd3 : ¬ d = backquoteChar := by
          intro hd; rw [hd] at hesc; simp at hesc
        have hd4 : ¬ d = singleQuoteChar := by
          intro hd; rw [hd] at hesc; simp at hesc
        have hstep : expandRepl m bf af (c :: d :: t2) =
            c :: d :: expandRepl m bf af t2 := by
          conv_lhs => unfold expandRepl
          rw [if_pos hdollar]
          dsimp only
          rw [if_neg hd1, if_neg hd2, if_neg hd3, if_neg hd4]
        have hihstep : expandRepl m bf af (d :: t2) =
            d :: expandRepl m bf af t2 := by
          conv_lhs => unfold expandRepl
          rw [if_neg hd1]
        have := ih ht
        rw [hihstep] at this
        injection this with h1 h2
        rw [hstep, h2]
    · have hstep : expandRepl m bf af (c :: t) =
          c :: expandRepl m bf af t := by
        conv_lhs => unfold expandRepl
        rw [if_neg hdollar]
      rw [hstep, ih ht]

/-! ## Locating the markers of a freshly spliced section -/

/-- In `'\n' :: block ++ '\n' :: endMarker ++ Q` with no end marker inside
`block`, the first end-marker occurrence starts exactly at the spliced one
(index `block.length + 2`): no occurrence fits inside the leading part
(`block` is clean, the newlines cannot begin or end a marker) and no
occurrence can overlap the real marker (it has no nontrivial border). -/
theorem findFirst_end_in_section (block Q : List Char)
    (hE : findFirst endMarker block = none) :
    findFirst endMarker ('\n' :: (block ++ '\n' :: (endMarker ++ Q))) =
      some (block.length + 2) := by
  have hwA : '\n' :: (block ++ '\n' :: (endMarker ++ Q)) =
      ('\n' :: (block ++ ['\n'])) ++ (endMarker ++ Q) := by
    simp
  have hAlen : ('\n' :: (block ++ ['\n'])).length = block.length + 2 := by
    simp
  have hdropA : ('\n' :: (block ++ '\n' :: (endMarker ++ Q))).drop
      (block.length + 2) = endMarker ++ Q := by
    rw [hwA, ← hAlen, List.drop_left]
  have htakeA : ('\n' :: (block ++ '\n' :: (endMarker ++ Q))).take
      (block.length + 2) = '\n' :: (block ++ ['\n']) := by
    rw [hwA, ← hAlen, List.take_left]
  apply (findFirst_eq_some_iff _ _ _).mpr
  refine ⟨by rw [hdropA]; exact List.prefix_append _ _, ?_⟩
  intro p hp hocc
  by_cases hcase : p + 27 ≤ block.length + 2
  · -- the supposed occurrence would sit inside the leading part
    have hoccA : endMarker <+: ('\n' :: (block ++ ['\n'])).drop p := by
      refine (prefix_drop_of_take_eq
        ('\n' :: (block ++ '\n' :: (endMarker ++ Q)))
        ('\n' :: (block ++ ['\n'])) (block.length + 2) p endMarker
        ?_ ?_).mp hocc
      · rw [htakeA, ← hAlen, List.take_length]
      · rw [endMarker_length]; omega
    rcases Nat.eq_zero_or_pos p with rfl | hpos
    · -- it would start on the leading newline
      have h1 : endMarker.take 1 =
          ((('\n' :: (block ++ ['\n'])).drop 0).take 1) := by
        have := prefix_slice endMarker (('\n' :: (block ++ ['\n'])).drop 0)
          (by simpa using hoccA) 0 1 (by rw [endMarker_length]; omega)
        simpa using this
      rw [endMarker_take_one] at h1
      simp at h1
    · obtain ⟨q, rfl⟩ : ∃ q, p = q + 1 := ⟨p - 1, by omega⟩
      have hoccB : endMarker <+: (block ++ ['\n']).drop q := by
        rw [List.drop_succ_cons] at hoccA
        exact hoccA
      by_cases hq2 : q + 27 ≤ block.length
      · -- it would sit inside the clean block
        have hoccC : endMarker <+: block.drop q := by
          refine (prefix_drop_of_take_eq (block ++ ['\n']) block
            block.length q endMarker ?_ ?_).mp hoccB
          · rw [List.take_left, List.take_length]
          · rw [endMarker_length]; omega
        exact (findFirst_eq_none_iff _ _).mp hE q hoccC
      · -- its last character would be the trailing newline
        have hq3 : q + 26 = block.length := by omega
        have hslice := prefix_slice endMarker ((block ++ ['\n']).drop q)
          hoccB 26 1 (by rw [endMarker_length])
        rw [endMarker_drop_26] at hslice
        rw [List.drop_drop, hq3, List.drop_left] at hslice
        simp at hslice
  · -- the supposed occurrence would overlap the spliced marker: border
    have hd0 : 0 < block.length + 2 - p := by omega
    have hd27 : block.length + 2 - p < 27 := by omega
    have hslice := prefix_slice endMarker
      (('\n' :: (block ++ '\n' :: (endMarker ++ Q))).drop p) hocc
      (block.length + 2 - p) (27 - (block.length + 2 - p))
      (by rw [endMarker_length]; omega)
    have hlhs : (endMarker.drop (block.length + 2 - p)).take
        (27 - (block.length + 2 - p)) =
        endMarker.drop (block.length + 2 - p) := by
      have hlen : (endMarker.drop (block.length + 2 - p)).length =
          27 - (block.length + 2 - p) := by
        rw [List.length_drop, endMarker_length]
      rw [← hlen, List.take_length]
    rw [List.drop_drop] at hslice
    have hpd : p + (block.length + 2 - p) = block.length + 2 := by omega
    rw [hpd, hdropA] at hslice
    rw [List.take_append_of_le_length (by rw [endMarker_length]; omega)]
      at hslice
    rw [hlhs] at hslice
    exact endMarker_no_border (block.length + 2 - p) hd27 hd0 hslice

/-- When a document and its spliced version agree up to the end of the
matched start marker, the first start-marker occurrence stays at the same
index. -/
theorem findFirst_start_preserved (doc r : List Char) (i : Nat)
    (hfind : findFirst startMarker doc = some i)
    (hagree : r.take (i + 29) = doc.take (i + 29))
    (hocc : startMarker <+: r.drop i) :
    findFirst startMarker r = some i := by
  rcases (findFirst_eq_some_iff _ _ _).mp hfind with ⟨-, hdmin⟩
  apply (findFirst_eq_some_iff _ _ _).mpr
  refine ⟨hocc, ?_⟩
  intro p hpi hoccp
  refine hdmin p hpi ?_
  refine (prefix_drop_of_take_eq r doc (i + 29) p startMarker hagree
    ?_).mp hoccp
  rw [startMarker_length]; omega

/-- After appending the new section to a document containing no start
marker, the first start-marker occurrence is the appended one. -/
theorem findFirst_start_append (doc block : List Char)
    (hS : findFirst startMarker doc = none) :
    findFirst startMarker (doc ++ '\n' :: '\n' :: newMemorySection block) =
      some (doc.length + 2) := by
  have hnewsec : newMemorySection block =
      startMarker ++ ('\n' :: (block ++ '\n' :: endMarker)) := rfl
  have hdec : doc ++ '\n' :: '\n' :: newMemorySection block =
      (doc ++ ['\n', '\n']) ++ newMemorySection block := by simp
  have hlen2 : (doc ++ ['\n', '\n']).length = doc.length + 2 := by simp
  have hdrop2 : (doc ++ '\n' :: '\n' :: newMemorySection block).drop
      (doc.length + 2) = newMemorySection block := by
    rw [hdec, ← hlen2, List.drop_left]
  apply (findFirst_eq_some_iff _ _ _).mpr
  constructor
  · rw [hdrop2, hnewsec]
    exact List.prefix_append _ _
  · intro p hp hocc
    by_cases hcase : p + 29 ≤ doc.length
    · -- the occurrence would be inside the original document
      have hoccD : startMarker <+: doc.drop p := by
        refine (prefix_drop_of_take_eq
          (doc ++ '\n' :: '\n' :: newMemorySection block) doc doc.length p
          startMarker ?_ ?_).mp hocc
        · rw [List.take_left, List.take_length]
        · rw [startMarker_length]; omega
      exact (findFirst_eq_none_iff _ _).mp hS p hoccD
    · by_cases hcase2 : p + 29 ≤ doc.length + 2
      · -- its last character would be one of the separator newlines
        have hslice := prefix_slice startMarker
          ((doc ++ '\n' :: '\n' :: newMemorySection block).drop p) hocc 28 1
          (by rw [startMarker_length])
        rw [startMarker_drop_28, List.drop_drop] at hslice
        rcases (by omega : p + 28 = doc.length ∨ p + 28 = doc.length + 1)
          with hp28 | hp28
        · rw [hp28, List.drop_left] at hslice
          simp at hslice
        · have : (doc ++ '\n' :: '\n' :: newMemorySection block).drop
              (doc.length + 1) = '\n' :: newMemorySection block := by
            have hdec1 : doc ++ '\n' :: '\n' :: newMemorySection block =
                (doc ++ ['\n']) ++ '\n' :: newMemorySection block := by simp
            have hlen1 : (doc ++ ['\n']).length = doc.length + 1 := by simp
            rw [hdec1, ← hlen1, List.drop_left]
          rw [hp28, this] at hslice
          simp at hslice
      · -- the occurrence would overlap the appended marker: border
        have hd0 : 0 < doc.length + 2 - p := by omega
        have hd29 : doc.length + 2 - p < 29 := by omega
        have hslice := prefix_slice startMarker
          ((doc ++ '\n' :: '\n' :: newMemorySection block).drop p) hocc
          (doc.length + 2 - p) (29 - (doc.length + 2 - p))
          (by rw [startMarker_length]; omega)
        have hlhs : (startMarker.drop (doc.length + 2 - p)).take
            (29 - (doc.length + 2 - p)) =
            startMarker.drop (doc.length + 2 - p) := by
          have hlen : (startMarker.drop (doc.length + 2 - p)).length =
              29 - (doc.length + 2 - p) := by
            rw [List.length_drop, startMarker_length]
          rw [← hlen, List.take_length]
        rw [List.drop_drop] at hslice
        have hpd : p + (doc.length + 2 - p) = doc.length + 2 := by omega
        rw [hpd, hdrop2, hnewsec] at hslice
        rw [List.take_append_of_le_length
          (by rw [startMarker_length]; omega)] at hslice
        rw [hlhs] at hslice
        exact startMarker_no_border (doc.length + 2 - p) hd29 hd0 hslice

/-- The replacement string the splice builds never contains a dollar escape
when the block itself contains none. -/
theorem newMemorySection_no_escape (block : List Char)
    (hD : hasDollarEscape block = false) :
    hasDollarEscape (newMemorySection block) = false := by
  have htail : hasDollarEscape ('\n' :: endMarker) = false := by decide
  have htailesc : isEscapeCode ('\n' :: endMarker) = false := by decide
  have hmid : hasDollarEscape (block ++ '\n' :: endMarker) = false :=
    hasDollarEscape_append _ _ hD htail htailesc
  have hcons : hasDollarEscape ('\n' :: (block ++ '\n' :: endMarker)) =
      false := by
    rw [hasDollarEscape_cons, hmid, Bool.or_false]
    simp [dollarChar]
  have hconsesc : isEscapeCode ('\n' :: (block ++ '\n' :: endMarker)) =
      false := by
    rw [isEscapeCode_cons]
    decide
  have hstartesc : hasDollarEscape startMarker = false := by decide
  exact hasDollarEscape_append _ _ hstartesc hcons hconsesc

theorem newMemorySection_length (block : List Char) :
    (newMemorySection block).length = block.length + 58 := by
  simp [newMemorySection, startMarker_length, endMarker_length]
  omega

/-- Splicing into a document of the form `P ++ section ++ Q` whose first
match is exactly the section reproduces the document. -/
theorem splice_fixpoint (P Q block : List Char)
    (h1 : findFirst startMarker (P ++ newMemorySection block ++ Q) =
      some P.length)
    (h2 : findFirst endMarker ((P ++ newMemorySection block ++ Q).drop
      (P.length + 29)) = some (block.length + 2))
    (hD : hasDollarEscape block = false) :
    updateProjectInstructions (P ++ newMemorySection block ++ Q) block =
      P ++ newMemorySection block ++ Q := by
  have hspan : spliceSpan (P ++ newMemorySection block ++ Q) =
      some (P.length, P.length + 29 + (block.length + 2) + 27) := by
    unfold spliceSpan
    rw [h1, startMarker_length]
    dsimp only
    rw [h2, endMarker_length]
  have htake : (P ++ newMemorySection block ++ Q).take P.length = P := by
    rw [List.append_assoc, List.take_left]
  have hdropE : (P ++ newMemorySection block ++ Q).drop
      (P.length + 29 + (block.length + 2) + 27) = Q := by
    have hidx : P.length + 29 + (block.length + 2) + 27 =
        (P ++ newMemorySection block).length := by
      rw [List.length_append, newMemorySection_length]
      omega
    rw [hidx, List.drop_left]
  unfold updateProjectInstructions
  rw [hspan]
  dsimp only
  rw [htake, hdropE,
    expandRepl_id _ _ _ _ (newMemorySection_no_escape block hD)]

/-- Idempotence, append branch: the document has no marker pair and no
stray start marker. -/
theorem splice_idempotent_append (doc block : List Char)
    (hE : findFirst endMarker block = none)
    (hD : hasDollarEscape block = false)
    (hSnone : findFirst startMarker doc = none)
    (hspan : spliceSpan doc = none) :
    updateProjectInstructions (updateProjectInstructions doc block) block =
      updateProjectInstructions doc block := by
  have hr : updateProjectInstructions doc block =
      doc ++ '\n' :: '\n' :: newMemorySection block := by
    unfold updateProjectInstructions
    rw [hspan]
  have hform : doc ++ '\n' :: '\n' :: newMemorySection block =
      (doc ++ ['\n', '\n']) ++ newMemorySection block ++ [] := by simp
  have hlenP : (doc ++ ['\n', '\n']).length = doc.length + 2 := by simp
  have h1 : findFirst startMarker
      ((doc ++ ['\n', '\n']) ++ newMemorySection block ++ []) =
      some (doc ++ ['\n', '\n']).length := by
    rw [← hform, hlenP]
    exact findFirst_start_append doc block hSnone
  have h2 : findFirst endMarker
      (((doc ++ ['\n', '\n']) ++ newMemorySection block ++ []).drop
        ((doc ++ ['\n', '\n']).length + 29)) = some (block.length + 2) := by
    have hdec : (doc ++ ['\n', '\n']) ++ newMemorySection block ++ [] =
        ((doc ++ ['\n', '\n']) ++ startMarker) ++
          ('\n' :: (block ++ '\n' :: (endMarker ++ []))) := by
      simp [newMemorySection]
    have hlen : ((doc ++ ['\n', '\n']) ++ startMarker).length =
        (doc ++ ['\n', '\n']).length + 29 := by
      rw [List.length_append, startMarker_length]
    rw [hdec, ← hlen, List.drop_left]
    exact findFirst_end_in_section block [] hE
  rw [hr, hform]
  exact splice_fixpoint (doc ++ ['\n', '\n']) [] block h1 h2 hD

/-- Idempotence, replace branch: the document has a marker pair at
`[i, i + 29 + j + 27)`. -/
theorem splice_idempotent_replace (doc block : List Char) (i j : Nat)
    (hE : findFirst endMarker block = none)
    (hD : hasDollarEscape block = false)
    (hfS : findFirst startMarker doc = some i)
    (hfE : findFirst endMarker (doc.drop (i + 29)) = some j)
    (hspan : spliceSpan doc = some (i, i + 29 + j + 27)) :
    updateProjectInstructions (updateProjectInstructions doc block) block =
      updateProjectInstructions doc block := by
  have hSocc := ((findFirst_eq_some_iff _ _ _).mp hfS).1
  obtain ⟨t, ht⟩ := hSocc
  have hEocc := ((findFirst_eq_some_iff _ _ _).mp hfE).1
  rw [List.drop_drop] at hEocc
  obtain ⟨u, hu⟩ := hEocc
  have hlens := congrArg List.length ht
  rw [List.length_append, startMarker_length, List.length_drop] at hlens
  have hi29 : i + 29 ≤ doc.length := by omega
  have hPlen : (doc.take i).length = i := by
    rw [List.length_take]
    omega
  have hdoc : doc = doc.take i ++ (startMarker ++ t) := by
    conv_lhs => rw [← List.take_append_drop i doc]
    rw [← ht]
  have hQ : doc.drop (i + 29 + j + 27) = u := by
    have hsplit : doc.drop (i + 29 + j + 27) =
        (doc.drop (i + 29 + j)).drop 27 := by
      rw [List.drop_drop]
    rw [hsplit, ← hu, ← endMarker_length, List.drop_left]
  have hPS : doc.take i ++ newMemorySection block ++
      doc.drop (i + 29 + j + 27) =
      (doc.take i ++ startMarker) ++
        ('\n' :: (block ++ '\n' ::
          (endMarker ++ doc.drop (i + 29 + j + 27)))) := by
    simp [newMemorySection]
  have hPSlen : (doc.take i ++ startMarker).length = i + 29 := by
    rw [List.length_append, hPlen, startMarker_length]
  have hr : updateProjectInstructions doc block =
      doc.take i ++ newMemorySection block ++
        doc.drop (i + 29 + j + 27) := by
    unfold updateProjectInstructions
    rw [hspan]
    dsimp only
    rw [expandRepl_id _ _ _ _ (newMemorySection_no_escape block hD)]
  have h1 : findFirst startMarker
      (doc.take i ++ newMemorySection block ++
        doc.drop (i + 29 + j + 27)) = some (doc.take i).length := by
    rw [hPlen]
    apply findFirst_start_preserved doc _ i hfS
    · -- agreement up to the end of the start marker
      have hL : (doc.take i ++ newMemorySection block ++
          doc.drop (i + 29 + j + 27)).take (i + 29) =
          doc.take i ++ startMarker := by
        rw [hPS]
        exact List.take_left' hPSlen
      have hR : doc.take (i + 29) = doc.take i ++ startMarker := by
        conv_lhs => rw [hdoc]
        rw [← List.append_assoc]
        exact List.take_left' hPSlen
      rw [hL, hR]
    · -- the spliced section starts with the start marker
      have hdropP : (doc.take i ++ newMemorySection block ++
          doc.drop (i + 29 + j + 27)).drop i = newMemorySection block ++
          doc.drop (i + 29 + j + 27) := by
        rw [List.append_assoc]
        exact List.drop_left' hPlen
      rw [hdropP]
      have : newMemorySection block ++ doc.drop (i + 29 + j + 27) =
          startMarker ++ ('\n' :: (block ++ '\n' ::
            (endMarker ++ doc.drop (i + 29 + j + 27)))) := by
        simp [newMemorySection]
      rw [this]
      exact List.prefix_append _ _
  have h2 : findFirst endMarker
      ((doc.take i ++ newMemorySection block ++
        doc.drop (i + 29 + j + 27)).drop ((doc.take i).length + 29)) =
      some (block.length + 2) := by
    rw [hPlen, hPS, List.drop_left' hPSlen]
    exact findFirst_end_in_section block (doc.drop (i + 29 + j + 27)) hE
  rw [hr]
  exact splice_fixpoint (doc.take i) (doc.drop (i + 29 + j + 27)) block
    h1 h2 hD

/-! ## Helper lemmas about the stores -/

theorem filter_length_map_eq {α : Type} (p : α → Bool) (f : α → α)
    (hf : ∀ r, p (f r) = p r) (l : List α) :
    ((l.map f).filter p).length = (l.filter p).length := by
  induction l with
  | nil => rfl
  | cons a t ih =>
    simp only [List.map_cons, List.filter_cons, hf]
    cases p a <;> simp [ih]

theorem map_update_of_filter_nil {α : Type} (p : α → Bool) (g : α → α)
    (l : List α) (h : l.filter p = []) :
    l.map (fun r => if p r then g r else r) = l := by
  induction l with
  | nil => rfl
  | cons a t ih =>
    simp only [List.filter_cons] at h
    by_cases hp : p a = true
    · simp [hp] at h
    · have hp' : p a = false := by simpa using hp
      simp only [hp', List.filter_cons, if_neg, Bool.false_eq_true,
        not_false_iff] at h ⊢
      simp only [List.map_cons]
      rw [ih h]
      simp [hp']

/-! ## Claim theorems -/

/-- C1.  For every importance value outside `[1, 5]`, `add_knowledge` is
rejected by the `CHECK` constraint and the transaction rollback leaves both
the `notes` table and the `project_knowledge` table exactly as they were:
the call returns the unchanged database together with an error, never a
note id. -/
theorem add_knowledge_rejects_out_of_range_importance
    (cfg : ManagerConfig) (db : DB) (now : Nat) (e : ProjectKnowledgeEntry)
    (h : e.importance < 1 ∨ 5 < e.importance) :
    (add_knowledge cfg db now e).1.notes = db.notes ∧
    (add_knowledge cfg db now e).1.project_knowledge = db.project_knowledge ∧
    ∀ n, (add_knowledge cfg db now e).2 ≠ Except.ok n := by
  have hbad : importanceOK e.importance = false := by
    simp only [importanceOK, Bool.and_eq_false_iff, decide_eq_false_iff_not]
    omega
  unfold add_knowledge insertNote insertKnowledge
  simp [hbad]

theorem add_knowledge_rejects_out_of_range_importance_witness :
    ((0 : Int) < 1 ∨ 5 < (0 : Int)) ∧
      ((add_knowledge localConfig emptyDB 7
          { title := "t", content := "c", category := "x",
            importance := 0 }).1.notes = emptyDB.notes ∧
        (add_knowledge localConfig emptyDB 7
          { title := "t", content := "c", category := "x",
            importance := 0 }).1.project_knowledge =
            emptyDB.project_knowledge ∧
        ∀ n, (add_knowledge localConfig emptyDB 7
          { title := "t", content := "c", category := "x",
            importance := 0 }).2 ≠ Except.ok n) :=
  ⟨by decide,
   add_knowledge_rejects_out_of_range_importance localConfig emptyDB 7
     { title := "t", content := "c", category := "x", importance := 0 }
     (by decide)⟩

/-- C2.  `update_instruction` preserves the at-most-one-active-row-per-
section invariant on every committed call, and the concrete upsert scenario
holds: on a store with no active `"guidelines"` row, updating with `"v1"`
and then with `"v2"`/priority 5 leaves exactly one active `"guidelines"`
row, carrying content `"v2"` and priority 5. -/
theorem update_instruction_upsert_unique_active :
    (∀ (db : DB) (now : Nat) (ins : ProjectInstruction) (db1 : DB)
        (r : Except String Bool),
      (∀ s, (db.project_instructions.filter (activeSectionPred s)).length ≤ 1) →
      update_instruction db now ins = (db1, r) →
      ∀ s, (db1.project_instructions.filter (activeSectionPred s)).length ≤ 1) ∧
    (∀ (db : DB) (now1 now2 : Nat),
      db.project_instructions.filter (activeSectionPred "guidelines") = [] →
      ((((update_instruction
            (update_instruction db now1
              { «section» := "guidelines", content := "v1" }).1 now2
            { «section» := "guidelines", content := "v2", priority := 5 }).1
          ).project_instructions.filter
            (activeSectionPred "guidelines")).map
          (fun r => (r.content, r.priority))) = [("v2", (5 : Int))]) := by
  constructor
  · intro db now ins db1 r hinv hcall s
    unfold update_instruction at hcall
    by_cases hok : priorityOK ins.priority = true
    · rw [if_pos hok] at hcall
      rcases hhead : (db.project_instructions.filter
          (activeSectionPred ins.«section»)).head? with _ | row
      · rw [hhead] at hcall
        injection hcall with h1 h2
        subst h1
        show ((db.project_instructions ++
            [({ id := db.nextInstructionId, «section» := ins.«section»,
                content := ins.content, priority := ins.priority,
                active := true, created_at := now,
                updated_at := now } : InstructionRow)]).filter
              (activeSectionPred s)).length ≤ 1
        rw [List.filter_append]
        by_cases hs : activeSectionPred s
            { id := db.nextInstructionId, «section» := ins.«section»,
              content := ins.content, priority := ins.priority,
              active := true, created_at := now, updated_at := now } = true
        · have hsec : s = ins.«section» := by
            simp only [activeSectionPred, Bool.and_eq_true, beq_iff_eq] at hs
            exact hs.1.symm
          have hnil : db.project_instructions.filter
              (activeSectionPred ins.«section») = [] :=
            List.head?_eq_none_iff.mp hhead
          rw [hsec, hnil]
          simp [List.filter_cons, hsec ▸ hs]
        · have hs' : activeSectionPred s
              { id := db.nextInstructionId, «section» := ins.«section»,
                content := ins.content, priority := ins.priority,
                active := true, created_at := now, updated_at := now }
              = false := by simpa using hs
          simp only [List.filter_cons, hs', Bool.false_eq_true, if_false,
            List.filter_nil, List.append_nil]
          exact hinv s
      · rw [hhead] at hcall
        injection hcall with h1 h2
        subst h1
        show ((db.project_instructions.map (fun r =>
            if activeSectionPred ins.«section» r then
              { r with content := ins.content, priority := ins.priority,
                       updated_at := now }
            else r)).filter (activeSectionPred s)).length ≤ 1
        rw [filter_length_map_eq (activeSectionPred s) _ ?_]
        · exact hinv s
        · intro r
          by_cases hmatch : activeSectionPred ins.«section» r = true
          · rw [if_pos hmatch]; rfl
          · rw [if_neg hmatch]
    · rw [if_neg hok] at hcall
      injection hcall with h1 h2
      subst h1
      exact hinv s
  · intro db now1 now2 hnil
    have hok3 : priorityOK 3 = true := by decide
    have hok5 : priorityOK 5 = true := by decide
    unfold update_instruction
    rw [hnil]
    simp only [List.head?_nil, hok3, if_true]
    set row1 : InstructionRow :=
      { id := db.nextInstructionId, «section» := "guidelines",
        content := "v1", priority := 3, active := true,
        created_at := now1, updated_at := now1 } with hrow1
    have hstep : (db.project_instructions ++ [row1]).filter
        (activeSectionPred "guidelines") = [row1] := by
      rw [List.filter_append, hnil]
      simp [activeSectionPred, hrow1]
    simp only [hstep, List.head?_cons, hok5, if_true]
    rw [List.map_append, List.filter_append]
    rw [map_update_of_filter_nil _ _ _ hnil, hnil]
    simp [activeSectionPred, hrow1]

/-- C4.  Round-trip on a fresh store: adding the `T`/`C`/`technical`/
`["a","b"]`/importance-4 entry and then searching for `"C"` returns exactly
one dictionary, whose title, content, category, decoded tags and importance
are the inputs (id 1, the default source, and the insertion timestamp). -/
theorem add_search_round_trip :
    search_knowledge
        (add_knowledge localConfig emptyDB 0
          { title := "T", content := "C", category := "technical",
            tags := ["a", "b"], importance := 4 }).1 "C" none =
      [{ id := 1, title := "T", content := "C", category := "technical",
         tags := ["a", "b"], importance := 4, source := "conversation",
         created_at := 0 }] := by
  decide

/-- C5, counterexample.  With creation timestamps 1 < 2 < 3,
`get_all_knowledge` does not return the claimed order
`[entry1, entry3, entry2]`. -/
theorem get_all_knowledge_order_counterexample :
    (get_all_knowledge (orderingScenarioDB 1 2 3)).map (·.title) ≠
      ["T1", "T3", "T2"] := by
  decide

/-- C5, amended.  `ORDER BY importance DESC, created_at DESC` returns the
three entries as `[entry3, entry1, entry2]`: descending importance, ties
broken by recency descending, so among the two importance-5 entries the
later-added one comes first. -/
theorem get_all_knowledge_order (t1 t2 t3 : Nat)
    (h12 : t1 < t2) (h23 : t2 < t3) :
    (get_all_knowledge (orderingScenarioDB t1 t2 t3)).map (·.title) =
      ["T3", "T1", "T2"] := by
  have h13 : t1 < t3 := Nat.lt_trans h12 h23
  have hn31 : ¬ t3 < t1 := by omega
  have hn32 : ¬ t3 < t2 := by omega
  simp only [orderingScenarioDB, add_knowledge, insertNote, insertKnowledge,
    get_all_knowledge, orderKnowledge, orderInsert, knowledgeBefore,
    emptyDB, importanceOK]
  norm_num [h13, hn31, hn32, knowledgeViewOfRow]

theorem get_all_knowledge_order_witness :
    (1 < 2 ∧ 2 < 3) ∧
      (get_all_knowledge (orderingScenarioDB 1 2 3)).map (·.title) =
        ["T3", "T1", "T2"] :=
  ⟨by decide, get_all_knowledge_order 1 2 3 (by decide) (by decide)⟩

/-- C7, counterexample.  A store with one knowledge entry and no active
`"guidelines"` instruction section for which the analyzer's suggestion list
does not contain the guideline suggestion: the code requires strictly more
than five entries, not more than zero. -/
theorem suggest_guidelines_counterexample :
    (get_all_knowledge singleEntryDB).length = 1 ∧
    get_all_instructions singleEntryDB = [] ∧
    suggestionGuidelines ∉
      improvement_suggestions (get_all_knowledge singleEntryDB)
        (get_all_instructions singleEntryDB) "any conversation summary" := by
  decide

/-- C7, amended.  Whenever no active instruction section is named
`"guidelines"` and the store holds more than five knowledge entries, the
suggestion list contains the guideline suggestion, whatever the
conversation summary says. -/
theorem suggest_guidelines_when_many_entries (db : DB) (summary : String)
    (hng : "guidelines" ∉ (get_all_instructions db).map (·.«section»))
    (hcount : 5 < (get_all_knowledge db).length) :
    suggestionGuidelines ∈
      improvement_suggestions (get_all_knowledge db)
        (get_all_instructions db) summary := by
  have hc : ((get_all_instructions db).map (·.«section»)).contains
      "guidelines" = false := by
    simpa using hng
  show suggestionGuidelines ∈
    (if !(((get_all_knowledge db).map (·.category)).contains "technical") &&
          containsSub "code" (pyLower summary) then
        [suggestionTechnical] else []) ++
    (if !(((get_all_knowledge db).map (·.category)).contains "preferences") &&
          containsSub "prefer" (pyLower summary) then
        [suggestionPreferences] else []) ++
    (if !(((get_all_instructions db).map (·.«section»)).contains
            "constraints") &&
          (containsSub "limit" (pyLower summary) ||
            containsSub "constraint" (pyLower summary)) then
        [suggestionConstraints] else []) ++
    (if !(((get_all_instructions db).map (·.«section»)).contains
            "guidelines") &&
          decide (5 < (get_all_knowledge db).length) then
        [suggestionGuidelines] else []) ++
    (if 10 < (get_all_knowledge db).length then
        (let low_importance :=
          (get_all_knowledge db).filter (fun k => k.importance < 3)
         if 5 < low_importance.length then
          [suggestionLowImportance low_importance.length] else [])
      else [])
  refine List.mem_append.mpr (Or.inl ?_)
  refine List.mem_append.mpr (Or.inr ?_)
  rw [if_pos (by rw [hc]; simp [hcount])]
  exact List.mem_singleton_self _

theorem suggest_guidelines_when_many_entries_witness :
    ("guidelines" ∉ (get_all_instructions sixEntryDB).map (·.«section») ∧
      5 < (get_all_knowledge sixEntryDB).length) ∧
    suggestionGuidelines ∈
      improvement_suggestions (get_all_knowledge sixEntryDB)
        (get_all_instructions sixEntryDB) "s" :=
  ⟨⟨by decide, by decide⟩,
   suggest_guidelines_when_many_entries sixEntryDB "s" (by decide) (by decide)⟩

/-- C8.  Dispatching any tool name outside the declared set of eight leaves
the database untouched and returns the unsupported-operation text
`Unknown tool: {name}` — no store operation runs and no ordinary per-tool
success rendering is produced. -/
theorem call_tool_unknown_tool (cfg : ManagerConfig) (db : DB) (now : Nat)
    (name : String) (args : ToolArgs) (h : name ∉ declaredTools) :
    call_tool cfg db now name args = (db, .ok ["Unknown tool: " ++ name]) := by
  simp only [declaredTools, List.mem_cons, List.not_mem_nil, or_false,
    not_or] at h
  obtain ⟨h1, h2, h3, h4, h5, h6, h7, h8⟩ := h
  unfold call_tool
  rw [if_neg h1, if_neg h2, if_neg h3, if_neg h4, if_neg h5, if_neg h6,
    if_neg h7, if_neg h8]

theorem call_tool_unknown_tool_witness :
    ("bogus_tool" ∉ declaredTools) ∧
      call_tool localConfig emptyDB 0 "bogus_tool" {} =
        (emptyDB, .ok ["Unknown tool: bogus_tool"]) :=
  ⟨by decide,
   call_tool_unknown_tool localConfig emptyDB 0 "bogus_tool" {} (by decide)⟩

/-- C9.  `update_instruction` answers `True` on every call that commits
(both the update and the insert branch end in `return True`); consequently
the only text the `update_project_instructions` dispatch branch can return
is the success message, and its `❌ Failed ...` rendering is unreachable. -/
theorem update_instruction_returns_true :
    (∀ (db : DB) (now : Nat) (ins : ProjectInstruction) (db1 : DB) (b : Bool),
      update_instruction db now ins = (db1, .ok b) → b = true) ∧
    (∀ (cfg : ManagerConfig) (db : DB) (now : Nat) (args : ToolArgs)
        (db1 : DB) (out : List String),
      call_tool cfg db now "update_project_instructions" args =
          (db1, .ok out) →
      ∃ s, args.«section» = some s ∧
        out = ["✅ Updated project instructions for section '" ++ s ++
          "' with priority " ++ toString (args.priority.getD 3)]) := by
  constructor
  · intro db now ins db1 b hcall
    unfold update_instruction at hcall
    by_cases hok : priorityOK ins.priority = true
    · rw [if_pos hok] at hcall
      rcases hhead : (db.project_instructions.filter
          (activeSectionPred ins.«section»)).head? with _ | row
      · rw [hhead] at hcall
        injection hcall with h1 h2
        injection h2 with h3
        exact h3.symm
      · rw [hhead] at hcall
        injection hcall with h1 h2
        injection h2 with h3
        exact h3.symm
    · rw [if_neg hok] at hcall
      injection hcall with h1 h2
      injection h2
  · intro cfg db now args db1 out hcall
    have hname1 : ¬ ("update_project_instructions" =
        "add_project_knowledge") := by decide
    unfold call_tool at hcall
    rw [if_neg hname1, if_pos rfl] at hcall
    rcases hsec : args.«section» with _ | s
    · rw [hsec] at hcall
      simp only [reqArg] at hcall
      injection hcall with h1 h2
      injection h2
    · rw [hsec] at hcall
      rcases hcon : args.content with _ | c
      · rw [hcon] at hcall
        simp only [reqArg] at hcall
        injection hcall with h1 h2
        injection h2
      · rw [hcon] at hcall
        simp only [reqArg] at hcall
        refine ⟨s, rfl, ?_⟩
        by_cases hok : priorityOK (args.priority.getD 3) = true
        · have hexists : ∃ db2, update_instruction db now
              { «section» := s, content := c,
                priority := args.priority.getD 3 } = (db2, Except.ok true) := by
            unfold update_instruction
            rw [if_pos hok]
            cases (db.project_instructions.filter
                (activeSectionPred s)).head? with
            | none => exact ⟨_, rfl⟩
            | some row => exact ⟨_, rfl⟩
          rcases hexists with ⟨db2, hupd⟩
          rw [hupd] at hcall
          injection hcall with h1 h2
          injection h2 with h3
          simp only [if_true] at h3
          exact h3.symm
        · have hupd : update_instruction db now
              { «section» := s, content := c,
                priority := args.priority.getD 3 } =
              (db, Except.error "IntegrityError: CHECK constraint failed: priority BETWEEN 1 AND 5") := by
            unfold update_instruction
            rw [if_neg hok]
          rw [hupd] at hcall
          injection hcall with h1 h2
          injection h2

theorem update_instruction_returns_true_witness :
    (update_instruction emptyDB 0 { «section» := "s", content := "c" } =
        ((update_instruction emptyDB 0
            { «section» := "s", content := "c" }).1, Except.ok true) ∧
      true = true) ∧
    (call_tool localConfig emptyDB 0 "update_project_instructions"
          { «section» := some "g", content := some "c" } =
        ((call_tool localConfig emptyDB 0 "update_project_instructions"
            { «section» := some "g", content := some "c" }).1,
          Except.ok
            ["✅ Updated project instructions for section 'g' with priority 3"]) ∧
      ∃ s, (({ «section» := some "g", content := some "c" } :
            ToolArgs)).«section» = some s ∧
        ["✅ Updated project instructions for section 'g' with priority 3"] =
          ["✅ Updated project instructions for section '" ++ s ++
            "' with priority " ++
            toString ((({ «section» := some "g", content := some "c" } :
              ToolArgs)).priority.getD 3)]) :=
  ⟨⟨rfl,
    update_instruction_returns_true.1 emptyDB 0
      { «section» := "s", content := "c" }
      (update_instruction emptyDB 0
        { «section» := "s", content := "c" }).1 true rfl⟩,
   ⟨rfl,
    update_instruction_returns_true.2 localConfig emptyDB 0
      { «section» := some "g", content := some "c" }
      (call_tool localConfig emptyDB 0 "update_project_instructions"
        { «section» := some "g", content := some "c" }).1
      ["✅ Updated project instructions for section 'g' with priority 3"]
      rfl⟩⟩

/-- C3, counterexample.  The splice is not idempotent for every document and
block: with the empty document and a block equal to the end marker itself,
the second run matches up to the block's own end marker (the regex is lazy)
and splices again, growing the text. -/
theorem splice_idempotence_counterexample :
    updateProjectInstructions (updateProjectInstructions [] endMarker)
        endMarker ≠
      updateProjectInstructions [] endMarker := by
  decide

/-- C3, amended.  The splice is idempotent for every block that contains no
occurrence of the end marker and no `String.replace` dollar escape, on every
document that, when it has no marker pair, contains no occurrence of the
start marker either: splicing the block into an already-spliced document
returns it byte for byte. -/
theorem splice_idempotent (doc block : List Char)
    (hE : findFirst endMarker block = none)
    (hD : hasDollarEscape block = false)
    (hS : spliceSpan doc = none → findFirst startMarker doc = none) :
    updateProjectInstructions (updateProjectInstructions doc block) block =
      updateProjectInstructions doc block := by
  rcases hfS : findFirst startMarker doc with _ | i
  · have hspan : spliceSpan doc = none := by
      unfold spliceSpan
      rw [hfS]
    exact splice_idempotent_append doc block hE hD hfS hspan
  · rcases hfE : findFirst endMarker (doc.drop (i + startMarker.length))
        with _ | j
    · have hspan : spliceSpan doc = none := by
        unfold spliceSpan
        rw [hfS]
        dsimp only
        rw [hfE]
      exact absurd (hS hspan) (by rw [hfS]; simp)
    · rw [startMarker_length] at hfE
      have hspan : spliceSpan doc = some (i, i + 29 + j + 27) := by
        unfold spliceSpan
        rw [hfS]
        dsimp only
        rw [startMarker_length, endMarker_length, hfE]
      exact splice_idempotent_replace doc block i j hE hD hfS hfE hspan

theorem splice_idempotent_witness :
    (findFirst endMarker "fresh context".data = none ∧
      hasDollarEscape "fresh context".data = false ∧
      (spliceSpan "hello document".data = none →
        findFirst startMarker "hello document".data = none)) ∧
    updateProjectInstructions
        (updateProjectInstructions "hello document".data
          "fresh context".data) "fresh context".data =
      updateProjectInstructions "hello document".data
        "fresh context".data :=
  ⟨⟨by decide, by decide, by decide⟩,
   splice_idempotent "hello document".data "fresh context".data
     (by decide) (by decide) (by decide)⟩

/-- C6.  On a document without a marker pair the splice appends, after one
blank line, exactly one marker pair whose body is the block, and every byte
of the original document is preserved unchanged before the appended
section. -/
theorem splice_miss_appends (doc block : List Char)
    (h : spliceSpan doc = none) :
    updateProjectInstructions doc block =
        doc ++ '\n' :: '\n' :: newMemorySection block ∧
      (updateProjectInstructions doc block).take doc.length = doc := by
  have happ : updateProjectInstructions doc block =
      doc ++ '\n' :: '\n' :: newMemorySection block := by
    unfold updateProjectInstructions
    rw [h]
  exact ⟨happ, by rw [happ]; exact List.take_left doc _⟩

theorem splice_miss_appends_witness :
    spliceSpan "hello document".data = none ∧
      (updateProjectInstructions "hello document".data "block".data =
          "hello document".data ++ '\n' :: '\n' ::
            newMemorySection "block".data ∧
        (updateProjectInstructions "hello document".data
            "block".data).take "hello document".data.length =
          "hello document".data) :=
  ⟨by decide,
   splice_miss_appends "hello document".data "block".data (by decide)⟩

/-- C10.  Searching with the empty query and no category filter is the same
query as `get_all_knowledge`: the `LIKE '%%'` disjunct accepts every row,
and the two code paths share the `ORDER BY` clause and the row-to-dictionary
conversion, so the returned lists are identical, in the same order. -/
theorem search_empty_query_eq_get_all (db : DB) :
    search_knowledge db "" none = get_all_knowledge db := by
  unfold search_knowledge get_all_knowledge
  have hfilter : db.project_knowledge.filter (searchPred "" none) =
      db.project_knowledge := by
    apply List.filter_eq_self.mpr
    intro r hr
    have hdata : ("" : String).data = [] := rfl
    simp [searchPred, hdata, likeMatch_empty_pattern]
  rw [hfilter]

theorem update_instruction_upsert_unique_active_witness :
    ((∀ s, ((emptyDB.project_instructions.filter
        (activeSectionPred s)).length ≤ 1)) ∧
      emptyDB.project_instructions.filter
        (activeSectionPred "guidelines") = []) ∧
    ((∀ s, (((update_instruction emptyDB 1
          { «section» := "ctx", content := "c" }).1.project_instructions.filter
            (activeSectionPred s)).length ≤ 1)) ∧
      ((((update_instruction
            (update_instruction emptyDB 1
              { «section» := "guidelines", content := "v1" }).1 2
            { «section» := "guidelines", content := "v2", priority := 5 }).1
          ).project_instructions.filter
            (activeSectionPred "guidelines")).map
          (fun r => (r.content, r.priority))) = [("v2", (5 : Int))]) :=
  ⟨⟨fun s => by simp [emptyDB], rfl⟩,
   ⟨fun s =>
      update_instruction_upsert_unique_active.1 emptyDB 1
        { «section» := "ctx", content := "c" } _ _
        (fun _ => by simp [emptyDB]) rfl s,
    update_instruction_upsert_unique_active.2 emptyDB 1 2 rfl⟩⟩

end MemoryContext
